import Mathlib

/-!
# Verification of `picasso/ml_frameworks/model.py`

Shallow embedding of the `BaseModel` class and the `generate_model` factory
from `picasso/ml_frameworks/model.py`, together with theorems settling the
specification claims about them.

Modelling conventions:
* Python floats are modelled as rationals (`ℚ`).
* A Python call that may raise is modelled as `Except PyError _`; the
  `try/except AttributeError` blocks become a `match` that turns
  `PyError.attributeError` into the fallback branch.
* `warnings.warn` is modelled by returning the list of warning messages
  emitted during the call alongside the result.
* The optional delegate lookup `getattr(self.preprocessor, self.preprocessor_name)`
  is modelled as an `Option`-valued field: `none` stands for the lookup itself
  raising `AttributeError` (missing attribute), `some f` for a successfully
  resolved callable `f`, which may in turn fail with any `PyError`.
-/

/-- Python exceptions relevant to `model.py`: `AttributeError` (caught by the
three delegate methods), `NotImplementedError` (raised by the abstract methods),
and any other exception. -/
inductive PyError where
  | attributeError
  | notImplementedError
  | otherError
deriving DecidableEq

/-- `str(i)` for a decimal digit `i ≤ 9`: the character `'0' + i`. -/
def digitChar (n : Nat) : Char := Char.ofNat (48 + n)

/-- Decimal representation of a natural number, one character per digit,
most significant first; models Python `str(n)` for `n : Nat`. -/
def natToChars (n : Nat) : List Char :=
  if n < 10 then [digitChar n] else natToChars (n / 10) ++ [digitChar (n % 10)]
termination_by n
decreasing_by
  simp only [not_lt] at *
  exact Nat.div_lt_self (by omega) (by omega)

/-- Python `str(n)` for a natural number. -/
def natToString (n : Nat) : String := ⟨natToChars n⟩

/-- Fixed three-digit decimal rendering of `n % 1000`-sized values (`n < 1000`),
used for the fractional part produced by `'{:.3f}'.format`. -/
def pad3 (n : Nat) : String :=
  ⟨[digitChar (n / 100), digitChar (n / 10 % 10), digitChar (n % 10)]⟩

/-- Round to the nearest integer, ties to even — the rounding performed by
Python float formatting (`'{:.3f}'.format`). -/
def roundHalfEven (x : ℚ) : ℤ :=
  if x - ⌊x⌋ < 1/2 then ⌊x⌋
  else if 1/2 < x - ⌊x⌋ then ⌊x⌋ + 1
  else if 2 ∣ ⌊x⌋ then ⌊x⌋ else ⌊x⌋ + 1

/-- Python `'{:.3f}'.format(q)`: sign, integer part, `'.'`, and exactly three
fractional digits, with the value rounded half-to-even at the third decimal. -/
def format3 (q : ℚ) : String :=
  let n := (roundHalfEven (|q| * 1000)).toNat
  (if q < 0 then "-" else "") ++ natToString (n / 1000) ++ "." ++ pad3 (n % 1000)

/-- The rational value denoted by the string `format3 q`. -/
def format3Val (q : ℚ) : ℚ :=
  (if q < 0 then -1 else 1) * ((roundHalfEven (|q| * 1000) : ℤ) : ℚ) / 1000

/-- Python list slicing `l[:k]` for an integer bound `k` (negative bounds count
from the end of the list). -/
def pyTake (k : Int) (l : List α) : List α :=
  if 0 ≤ k then l.take k.toNat else l.take (l.length - (-k).toNat)

/-- Python `enumerate`, starting at index `start`. -/
def pyEnumerate (start : Nat) : List α → List (Nat × α)
  | [] => []
  | a :: l => (start, a) :: pyEnumerate (start + 1) l

/-- One entry `{'index': i, 'name': str(i), 'prob': prob}` as first built by the
default decoding loop, with `prob` still the raw probability. -/
structure Entry where
  index : Nat
  name : String
  prob : ℚ
deriving DecidableEq

/-- An entry after the in-place formatting step `entry['prob'] = '{:.3f}'.format(...)`:
`{'index': i, 'name': str(i), 'prob': '<formatted>'}`. -/
structure DecodedEntry where
  index : Nat
  name : String
  prob : String
deriving DecidableEq

/-- Insert an entry into a list already sorted by `prob` descending, after every
element of strictly larger `prob` and before the rest; this is the insertion
step of the stable descending sort performed by
`sorted(entries, key=itemgetter('prob'), reverse=True)`. -/
def insertDesc (e : Entry) : List Entry → List Entry
  | [] => [e]
  | x :: xs => if e.prob < x.prob then x :: insertDesc e xs else e :: x :: xs

/-- Stable sort by `prob` descending, modelling Python's
`sorted(entries, key=itemgetter('prob'), reverse=True)` (Python's sort is
stable: entries with equal keys keep their original relative order). -/
def sortDesc (l : List Entry) : List Entry := l.foldr insertDesc []

/-- The entry-building loop of the default decoding:
`entries.append({'index': i, 'name': str(i), 'prob': prob})` for
`i, prob in enumerate(row)`. -/
def rowEntries (row : List ℚ) : List Entry :=
  (pyEnumerate 0 row).map (fun p => Entry.mk p.1 (natToString p.1) p.2)

/-- The default decoding of one probability row in `BaseModel.decode_prob`:
build `{'index': i, 'name': str(i), 'prob': prob}` for each class `i`, sort by
probability descending (stable), truncate to `top_probs`, then format each
retained probability with `'{:.3f}'.format`. -/
def decodeRow (top_probs : Int) (row : List ℚ) : List DecodedEntry :=
  (pyTake top_probs (sortDesc (rowEntries row))).map
    (fun e => ⟨e.index, e.name, format3 e.prob⟩)

/-- The default decoding algorithm of `BaseModel.decode_prob` (the body of the
`except AttributeError` branch): one decoded list per input row, in order. -/
def decode_prob_default (top_probs : Int) (output_arr : List (List ℚ)) :
    List (List DecodedEntry) :=
  output_arr.map (decodeRow top_probs)

/-- The state of a `BaseModel` instance as used by its concrete methods:
`top_probs` plus the three optional delegates. `ρ` is the type of raw targets
(also of preprocessed targets: `preprocess` falls back to the identity), `π` the
type of `postprocess` values, and `σ` the type of `_predict` results.
A delegate field is `none` when the corresponding
`getattr(self.xxx, self.xxx_name)` lookup raises `AttributeError`. The
abstract `load` method always raises `NotImplementedError` and is not needed by
any claim; `_predict` is a field whose default is the base class's
`raise NotImplementedError`, overridden by subclasses. -/
structure BaseModel (ρ π σ : Type) where
  top_probs : Int := 5
  preprocessor : Option (ρ → Except PyError ρ) := none
  postprocessor : Option (π → Except PyError π) := none
  prob_decoder : Option (List (List ℚ) → Int → Except PyError (List (List DecodedEntry))) := none
  _predict : ρ → Except PyError σ := fun _ => Except.error PyError.notImplementedError

/-- `BaseModel.preprocess`: try the delegate; on `AttributeError` (either from
the lookup, modelled by `none`, or raised by the delegate call itself) warn
`'Evaluating without preprocessor'` and return the input unchanged. The result
pairs the returned value (or propagated error) with the warnings emitted. -/
def BaseModel.preprocess (m : BaseModel ρ π σ) (raw_targets : ρ) :
    Except PyError ρ × List String :=
  match m.preprocessor with
  | some f =>
    match f raw_targets with
    | Except.ok v => (Except.ok v, [])
    | Except.error PyError.attributeError =>
      (Except.ok raw_targets, ["Evaluating without preprocessor"])
    | Except.error e => (Except.error e, [])
  | none => (Except.ok raw_targets, ["Evaluating without preprocessor"])

/-- `BaseModel.postprocess`: same shape as `preprocess`, with the
`'Evaluating without postprocessor'` warning. -/
def BaseModel.postprocess (m : BaseModel ρ π σ) (output_arr : π) :
    Except PyError π × List String :=
  match m.postprocessor with
  | some f =>
    match f output_arr with
    | Except.ok v => (Except.ok v, [])
    | Except.error PyError.attributeError =>
      (Except.ok output_arr, ["Evaluating without postprocessor"])
    | Except.error e => (Except.error e, [])
  | none => (Except.ok output_arr, ["Evaluating without postprocessor"])

/-- `BaseModel.decode_prob`: try the delegate (called with
`(output_arr, top=self.top_probs)`); on `AttributeError` warn
`'Evaluating without class decoder'` and run the default decoding algorithm. -/
def BaseModel.decode_prob (m : BaseModel ρ π σ) (output_arr : List (List ℚ)) :
    Except PyError (List (List DecodedEntry)) × List String :=
  match m.prob_decoder with
  | some f =>
    match f output_arr m.top_probs with
    | Except.ok v => (Except.ok v, [])
    | Except.error PyError.attributeError =>
      (Except.ok (decode_prob_default m.top_probs output_arr),
       ["Evaluating without class decoder"])
    | Except.error e => (Except.error e, [])
  | none =>
    (Except.ok (decode_prob_default m.top_probs output_arr),
     ["Evaluating without class decoder"])

/-- `BaseModel.predict`: `return self._predict(self.preprocess(raw_targets))`.
An error from `preprocess` propagates before `_predict` runs; warnings emitted
by `preprocess` are kept. -/
def BaseModel.predict (m : BaseModel ρ π σ) (raw_targets : ρ) :
    Except PyError σ × List String :=
  match m.preprocess raw_targets with
  | (Except.ok x, w) => (m._predict x, w)
  | (Except.error e, w) => (Except.error e, w)

/-! ## General lemmas about the formatting helpers -/

theorem digitChar_isDigit {n : Nat} (h : n < 10) : (digitChar n).isDigit = true := by
  interval_cases n <;> decide

theorem digitChar_ne_dot {n : Nat} (h : n < 10) : digitChar n ≠ '.' := by
  interval_cases n <;> decide

theorem natToChars_digits (n : Nat) : ∀ c ∈ natToChars n, c.isDigit = true := by
  induction n using Nat.strong_induction_on with
  | _ n ih =>
    rw [natToChars]
    split
    · intro c hc
      rw [List.mem_singleton] at hc
      subst hc
      exact digitChar_isDigit (by omega)
    · rename_i h
      intro c hc
      rcases List.mem_append.1 hc with h1 | h1
      · exact ih (n / 10) (Nat.div_lt_self (by omega) (by omega)) c h1
      · rw [List.mem_singleton] at h1
        subst h1
        exact digitChar_isDigit (Nat.mod_lt _ (by omega))

theorem natToChars_no_dot (n : Nat) : '.' ∉ natToChars n := by
  intro h
  have := natToChars_digits n '.' h
  simp at this

theorem roundHalfEven_close (x : ℚ) : |((roundHalfEven x : ℤ) : ℚ) - x| ≤ 1/2 := by
  have h0 : (⌊x⌋ : ℚ) ≤ x := Int.floor_le x
  have h1 : x < (⌊x⌋ : ℚ) + 1 := Int.lt_floor_add_one x
  rw [roundHalfEven]
  split_ifs with ha hb hc <;> rw [abs_le] <;> constructor <;> push_cast <;> linarith

theorem roundHalfEven_nonneg {x : ℚ} (h : 0 ≤ x) : 0 ≤ roundHalfEven x := by
  have h0 : 0 ≤ ⌊x⌋ := Int.floor_nonneg.2 h
  rw [roundHalfEven]
  split_ifs <;> omega

theorem format3Val_close (q : ℚ) : |format3Val q - q| ≤ 1/2000 := by
  rcases lt_or_le q 0 with hq | hq
  · have hR := roundHalfEven_close (|q| * 1000)
    rw [abs_of_neg hq] at hR
    rw [format3Val, abs_of_neg hq, if_pos hq]
    rw [abs_le] at hR ⊢
    constructor <;> linarith [hR.1, hR.2]
  · have hR := roundHalfEven_close (|q| * 1000)
    rw [abs_of_nonneg hq] at hR
    rw [format3Val, abs_of_nonneg hq, if_neg (not_lt.2 hq)]
    rw [abs_le] at hR ⊢
    constructor <;> linarith [hR.1, hR.2]

theorem pad3_length (n : Nat) : (pad3 n).data.length = 3 := by
  simp [pad3]

theorem pad3_digits {n : Nat} (h : n < 1000) : ∀ c ∈ (pad3 n).data, c.isDigit = true := by
  intro c hc
  simp only [pad3, List.mem_cons, List.not_mem_nil, or_false] at hc
  rcases hc with h1 | h1 | h1
  · subst h1
    exact digitChar_isDigit (by omega)
  · subst h1
    exact digitChar_isDigit (Nat.mod_lt _ (by omega))
  · subst h1
    exact digitChar_isDigit (Nat.mod_lt _ (by omega))

/-- The string produced by `format3` splits as an optional sign, dot-free
integer digits, a dot, and exactly three fractional digits. -/
theorem format3_shape (q : ℚ) :
    ∃ pre frac, (format3 q).data = pre ++ '.' :: frac ∧ frac.length = 3 ∧
      (∀ c ∈ frac, c.isDigit = true) ∧ '.' ∉ pre := by
  rw [format3]
  refine ⟨(if q < 0 then "-" else "").data ++
    natToChars ((roundHalfEven (|q| * 1000)).toNat / 1000),
    (pad3 ((roundHalfEven (|q| * 1000)).toNat % 1000)).data, ?_, pad3_length _,
    pad3_digits (Nat.mod_lt _ (by omega)), ?_⟩
  · simp only [String.data_append, natToString]
    have hdot : ("." : String).data = ['.'] := rfl
    simp [hdot]
  · intro h
    rcases List.mem_append.1 h with h1 | h1
    · split_ifs at h1 <;> simp_all
    · exact natToChars_no_dot _ h1

/-! ## Lemmas about the stable descending sort and `pyEnumerate` -/

/-- The pairwise relation established by the stable descending sort on entries
with pairwise distinct indices: strictly larger probability first, ties ordered
by original class index. -/
def entryLex (a b : Entry) : Prop :=
  b.prob < a.prob ∨ (a.prob = b.prob ∧ a.index < b.index)

theorem mem_insertDesc {x e : Entry} {l : List Entry} :
    x ∈ insertDesc e l ↔ x = e ∨ x ∈ l := by
  induction l with
  | nil => simp [insertDesc]
  | cons y ys ih =>
    rw [insertDesc]
    split_ifs with h
    · simp only [List.mem_cons, ih]
      tauto
    · simp only [List.mem_cons]

theorem length_insertDesc (e : Entry) (l : List Entry) :
    (insertDesc e l).length = l.length + 1 := by
  induction l with
  | nil => rfl
  | cons y ys ih =>
    rw [insertDesc]
    split_ifs with h
    · simp [ih]
    · simp

theorem length_sortDesc (l : List Entry) : (sortDesc l).length = l.length := by
  induction l with
  | nil => rfl
  | cons y ys ih =>
    show (insertDesc y (sortDesc ys)).length = ys.length + 1
    rw [length_insertDesc, ih]

theorem mem_sortDesc {x : Entry} {l : List Entry} : x ∈ sortDesc l ↔ x ∈ l := by
  induction l with
  | nil => simp [sortDesc]
  | cons y ys ih =>
    show x ∈ insertDesc y (sortDesc ys) ↔ _
    rw [mem_insertDesc, ih]
    simp

theorem pairwise_insertDesc {e : Entry} {l : List Entry}
    (hl : l.Pairwise entryLex) (he : ∀ x ∈ l, e.index < x.index) :
    (insertDesc e l).Pairwise entryLex := by
  induction l with
  | nil => simp [insertDesc, entryLex]
  | cons x xs ih =>
    rw [List.pairwise_cons] at hl
    rw [insertDesc]
    split_ifs with h
    · rw [List.pairwise_cons]
      refine ⟨?_, ih hl.2 (fun y hy => he y (List.mem_cons_of_mem _ hy))⟩
      intro y hy
      rcases mem_insertDesc.1 hy with rfl | hy2
      · exact Or.inl h
      · exact hl.1 y hy2
    · rw [List.pairwise_cons]
      refine ⟨?_, List.pairwise_cons.2 hl⟩
      intro y hy
      rcases List.mem_cons.1 hy with rfl | hy2
      · rcases lt_or_eq_of_le (not_lt.1 h) with h2 | h2
        · exact Or.inl h2
        · exact Or.inr ⟨h2.symm, he y (List.mem_cons_self _ _)⟩
      · rcases hl.1 y hy2 with h2 | h2
        · exact Or.inl (lt_of_lt_of_le h2 (not_lt.1 h))
        · rcases lt_or_eq_of_le (not_lt.1 h) with h3 | h3
          · exact Or.inl (h2.1 ▸ h3)
          · exact Or.inr ⟨(h3.symm.trans h2.1), he y (List.mem_cons_of_mem _ hy2)⟩

theorem pairwise_sortDesc {l : List Entry}
    (hl : l.Pairwise (fun a b => a.index < b.index)) :
    (sortDesc l).Pairwise entryLex := by
  induction l with
  | nil => simp [sortDesc]
  | cons y ys ih =>
    rw [List.pairwise_cons] at hl
    show (insertDesc y (sortDesc ys)).Pairwise entryLex
    exact pairwise_insertDesc (ih hl.2) (fun x hx => hl.1 x (mem_sortDesc.1 hx))

theorem length_pyEnumerate (s : Nat) (l : List α) :
    (pyEnumerate s l).length = l.length := by
  induction l generalizing s with
  | nil => rfl
  | cons a t ih =>
    show (pyEnumerate s (a :: t)).length = t.length + 1
    rw [pyEnumerate, List.length_cons, ih]

theorem mem_pyEnumerate {s : Nat} {l : List α} {p : Nat × α} (d : α)
    (hp : p ∈ pyEnumerate s l) :
    s ≤ p.1 ∧ p.1 - s < l.length ∧ l.getD (p.1 - s) d = p.2 := by
  induction l generalizing s with
  | nil => cases hp
  | cons a t ih =>
    rw [pyEnumerate, List.mem_cons] at hp
    rcases hp with rfl | hp
    · simp
    · obtain ⟨h1, h2, h3⟩ := ih hp
      refine ⟨by omega, by simp only [List.length_cons]; omega, ?_⟩
      have hd : p.1 - s = (p.1 - (s + 1)) + 1 := by omega
      rw [hd]
      simpa using h3

theorem pairwise_pyEnumerate (s : Nat) (l : List α) :
    (pyEnumerate s l).Pairwise (fun a b => a.1 < b.1) := by
  induction l generalizing s with
  | nil => exact List.Pairwise.nil
  | cons a t ih =>
    rw [pyEnumerate, List.pairwise_cons]
    refine ⟨fun p hp => ?_, ih (s + 1)⟩
    have := (mem_pyEnumerate a hp).1
    omega

/-! ## Lemmas about the default decoding of one row -/

theorem rowEntries_pairwise (row : List ℚ) :
    (rowEntries row).Pairwise (fun a b => a.index < b.index) := by
  rw [rowEntries, List.pairwise_map]
  exact pairwise_pyEnumerate 0 row

theorem rowEntries_mem {row : List ℚ} {e : Entry} (he : e ∈ rowEntries row) :
    e.index < row.length ∧ row.getD e.index 0 = e.prob ∧ e.name = natToString e.index := by
  rw [rowEntries, List.mem_map] at he
  obtain ⟨p, hp, rfl⟩ := he
  obtain ⟨_, h2, h3⟩ := mem_pyEnumerate 0 hp
  simp only [Nat.sub_zero] at h2 h3
  exact ⟨h2, h3, rfl⟩

theorem rowEntries_length (row : List ℚ) : (rowEntries row).length = row.length := by
  rw [rowEntries, List.length_map, length_pyEnumerate]

theorem decodeRow_length {top_probs : Int} (h : 0 ≤ top_probs) (row : List ℚ) :
    (decodeRow top_probs row).length = min top_probs.toNat row.length := by
  rw [decodeRow, List.length_map, pyTake, if_pos h, List.length_take, length_sortDesc,
    rowEntries_length]

theorem decodeRow_mem {top_probs : Int} {row : List ℚ} {d : DecodedEntry}
    (hd : d ∈ decodeRow top_probs row) :
    d.index < row.length ∧ d.prob = format3 (row.getD d.index 0) ∧
      d.name = natToString d.index := by
  rw [decodeRow, List.mem_map] at hd
  obtain ⟨e, he, rfl⟩ := hd
  have he2 : e ∈ sortDesc (rowEntries row) := by
    rw [pyTake] at he
    split_ifs at he <;> exact List.mem_of_mem_take he
  obtain ⟨h1, h2, h3⟩ := rowEntries_mem (mem_sortDesc.1 he2)
  exact ⟨h1, by rw [h2], h3⟩

/-- The retained, formatted entries of a decoded row are ordered by their
source probability (recovered through their class index) descending, ties by
ascending class index. -/
theorem decodeRow_pairwise (top_probs : Int) (row : List ℚ) :
    (decodeRow top_probs row).Pairwise
      (fun a b => row.getD b.index 0 < row.getD a.index 0 ∨
        (row.getD a.index 0 = row.getD b.index 0 ∧ a.index < b.index)) := by
  have hs : (sortDesc (rowEntries row)).Pairwise entryLex :=
    pairwise_sortDesc (rowEntries_pairwise row)
  have ht : (pyTake top_probs (sortDesc (rowEntries row))).Pairwise entryLex := by
    rw [pyTake]
    split_ifs <;> exact List.Pairwise.sublist (List.take_sublist _ _) hs
  rw [decodeRow, List.pairwise_map]
  refine ht.imp_of_mem ?_
  intro a b ha hb hab
  have ha2 : a ∈ sortDesc (rowEntries row) := by
    rw [pyTake] at ha
    split_ifs at ha <;> exact List.mem_of_mem_take ha
  have hb2 : b ∈ sortDesc (rowEntries row) := by
    rw [pyTake] at hb
    split_ifs at hb <;> exact List.mem_of_mem_take hb
  obtain ⟨_, hpa, _⟩ := rowEntries_mem (mem_sortDesc.1 ha2)
  obtain ⟨_, hpb, _⟩ := rowEntries_mem (mem_sortDesc.1 hb2)
  rcases hab with h | h
  · exact Or.inl (by rw [hpa, hpb]; exact h)
  · exact Or.inr ⟨by rw [hpa, hpb]; exact h.1, h.2⟩

/-! ## Python values, `__init__` attribute assignment, and `generate_model` -/

/-- Untyped Python values, as far as `model.py` manipulates them: numbers,
strings, lists and string-keyed dicts. -/
inductive PyV where
  | num (q : ℚ)
  | str (s : String)
  | list (l : List PyV)
  | dict (entries : List (String × PyV))

/-- `setattr(self, key, value)` on an attribute map (most recent binding
first). -/
def setAttr (attrs : List (String × PyV)) (key : String) (value : PyV) :
    List (String × PyV) :=
  (key, value) :: attrs

/-- `getattr(self, key)` on an attribute map: the most recent binding, if
any. -/
def pyGetattr (attrs : List (String × PyV)) (key : String) : Option PyV :=
  (attrs.find? (fun p => p.1 == key)).map Prod.snd

/-- `BaseModel.__init__`: `self.top_probs = top_probs` (parameter default `5`,
modelled by `none` meaning "not supplied"), then `setattr(self, key, value)`
for every extra keyword argument, in order. There is no validation and no
failure path: the constructor is total and accepts any extra keyword names. -/
def baseModelInit (top_probs : Option PyV) (kwargs : List (String × PyV)) :
    List (String × PyV) :=
  kwargs.foldl (fun attrs p => setAttr attrs p.1 p.2)
    (setAttr [] "top_probs" (top_probs.getD (PyV.num 5)))

/-- The `repr` of the `BaseModel` class interpolated by `%r` in
`generate_model`'s warning. -/
def baseModelRepr : String := "<class \x27picasso.ml_frameworks.model.BaseModel\x27>"

/-- The warning emitted by `generate_model` for a non-conforming instance:
`"Loaded model '%s' at '%s' is not an instance of %r" % (model_cls_name,
model_cls_path, BaseModel)`. -/
def notInstanceWarning (model_cls_name model_cls_path : String) : String :=
  "Loaded model \x27" ++ model_cls_name ++ "\x27 at \x27" ++ model_cls_path ++
    "\x27 is not an instance of " ++ baseModelRepr

/-- `generate_model(model_cls_path, model_cls_name, **kwargs)`. The importlib
machinery (executing the source file), the class lookup `getattr(model_module,
model_cls_name)` and the constructor call `model_cls(**kwargs)` are modelled as
explicit fallible parameters (`κ` is the type of class objects, `ι` of
instances); `isinstance_BaseModel` models `isinstance(model, BaseModel)`. Every
error propagates unmodified; a constructed non-conforming instance is still
returned, with a warning. -/
def generate_model {κ ι : Type}
    (exec_module : Except PyError Unit)
    (getattr_cls : String → Except PyError κ)
    (instantiate : κ → Except PyError ι)
    (isinstance_BaseModel : ι → Bool)
    (model_cls_path model_cls_name : String) :
    Except PyError ι × List String :=
  match exec_module with
  | Except.error e => (Except.error e, [])
  | Except.ok _ =>
    match getattr_cls model_cls_name with
    | Except.error e => (Except.error e, [])
    | Except.ok cls =>
      match instantiate cls with
      | Except.error e => (Except.error e, [])
      | Except.ok model =>
        (Except.ok model,
         if isinstance_BaseModel model then []
         else [notInstanceWarning model_cls_name model_cls_path])

/-! ## A heap model of the default decoding loop

The default branch of `decode_prob` builds fresh dicts, sorts references to
them, and then mutates the retained dicts in place
(`entry['prob'] = '{:.3f}'.format(entry['prob'])`).  To state what that
mutation can and cannot touch, the dicts are modelled explicitly as cells in a
store addressed by allocation order. -/

/-- The `prob` field of an entry dict: a raw probability before the in-place
formatting, a string after it. -/
inductive ProbField where
  | num (q : ℚ)
  | str (s : String)

/-- The contents of one entry dict `{'index': ..., 'name': ..., 'prob': ...}`. -/
structure EntryCell where
  index : Nat
  name : String
  prob : ProbField

/-- A heap of entry dicts: `next` is the next fresh address, `mem` maps
allocated addresses to contents, most recent binding first. -/
structure Store where
  next : Nat
  mem : List (Nat × EntryCell)

/-- Allocate a fresh dict. -/
def Store.alloc (s : Store) (c : EntryCell) : Nat × Store :=
  (s.next, ⟨s.next + 1, (s.next, c) :: s.mem⟩)

/-- Mutate the dict at address `a` in place. -/
def Store.set (s : Store) (a : Nat) (c : EntryCell) : Store :=
  ⟨s.next, (a, c) :: s.mem⟩

/-- Read the dict at address `a`. -/
def Store.get (s : Store) (a : Nat) : Option EntryCell :=
  (s.mem.find? (fun p => p.1 == a)).map Prod.snd

/-- The sort key of an entry dict reference: in the default decoding loop the
sort always runs before any formatting, so the `prob` field of every sorted
dict is still numeric; the `str` case never occurs there. -/
def cellProb (c : EntryCell) : ℚ :=
  match c.prob with
  | ProbField.num q => q
  | ProbField.str _ => 0

/-- The entry-building loop, heap version: allocate one fresh dict per
enumerated class, returning the references (paired with the allocated
contents) in loop order. -/
def allocEntries : List (Nat × ℚ) → Store → List (Nat × EntryCell) × Store
  | [], s => ([], s)
  | p :: rest, s =>
    let c : EntryCell := ⟨p.1, natToString p.1, ProbField.num p.2⟩
    let a := (Store.alloc s c).1
    let tail := allocEntries rest (Store.alloc s c).2
    ((a, c) :: tail.1, tail.2)

/-- Stable descending insertion on dict references, keyed by the numeric
`prob`. -/
def insertDescH (e : Nat × EntryCell) :
    List (Nat × EntryCell) → List (Nat × EntryCell)
  | [] => [e]
  | x :: xs => if cellProb e.2 < cellProb x.2 then x :: insertDescH e xs else e :: x :: xs

/-- Stable descending sort of dict references by `prob`, heap version of
`sorted(entries, key=itemgetter('prob'), reverse=True)`. -/
def sortDescH (l : List (Nat × EntryCell)) : List (Nat × EntryCell) :=
  l.foldr insertDescH []

/-- One row of the default decoding, heap version: allocate, sort, truncate,
then format the retained dicts in place; returns the references of the
retained dicts in result order together with the final heap. -/
def decodeRowH (top_probs : Int) (row : List ℚ) (s : Store) : List Nat × Store :=
  let es := allocEntries (pyEnumerate 0 row) s
  let retained := pyTake top_probs (sortDescH es.1)
  (retained.map Prod.fst,
   retained.foldl
     (fun st p =>
       Store.set st p.1 ⟨p.2.index, p.2.name, ProbField.str (format3 (cellProb p.2))⟩)
     es.2)

/-- The whole default decoding, heap version: rows processed in order, heap
threaded through. -/
def decode_prob_defaultH (top_probs : Int) (output_arr : List (List ℚ)) (s : Store) :
    List (List Nat) × Store :=
  match output_arr with
  | [] => ([], s)
  | row :: rest =>
    let r := decodeRowH top_probs row s
    let rs := decode_prob_defaultH top_probs rest r.2
    (r.1 :: rs.1, rs.2)

/-! ## Lemmas about the heap model and the attribute map -/

theorem store_get_skip {k : Nat} {c : EntryCell} {mem : List (Nat × EntryCell)}
    {n n2 a : Nat} (h : k ≠ a) :
    Store.get ⟨n, (k, c) :: mem⟩ a = Store.get ⟨n2, mem⟩ a := by
  rw [Store.get, Store.get, List.find?_cons_of_neg]
  simp [h]

theorem allocEntries_next (l : List (Nat × ℚ)) (s : Store) :
    (allocEntries l s).2.next = s.next + l.length := by
  induction l generalizing s with
  | nil => rfl
  | cons p rest ih =>
    show (allocEntries rest _).2.next = _
    rw [ih]
    simp [Store.alloc, List.length_cons]
    omega

theorem allocEntries_get_lt (l : List (Nat × ℚ)) (s : Store) {a : Nat}
    (h : a < s.next) :
    (allocEntries l s).2.get a = s.get a := by
  induction l generalizing s with
  | nil => rfl
  | cons p rest ih =>
    simp only [allocEntries]
    have hlt : a < (Store.alloc s ⟨p.1, natToString p.1, ProbField.num p.2⟩).2.next := by
      show a < s.next + 1
      omega
    rw [ih _ hlt]
    simp only [Store.alloc]
    exact store_get_skip (by omega)

theorem allocEntries_addrs (l : List (Nat × ℚ)) (s : Store) :
    ∀ p ∈ (allocEntries l s).1, s.next ≤ p.1 ∧ p.1 < (allocEntries l s).2.next := by
  induction l generalizing s with
  | nil => intro p hp; cases hp
  | cons q rest ih =>
    intro p hp
    rw [allocEntries] at hp
    rcases List.mem_cons.1 hp with rfl | hp2
    · refine ⟨le_refl _, ?_⟩
      show _ < (allocEntries rest _).2.next
      rw [allocEntries_next]
      simp [Store.alloc]
      omega
    · have := ih _ p hp2
      simp only [Store.alloc] at this
      refine ⟨by omega, ?_⟩
      show _ < (allocEntries rest _).2.next
      exact this.2

theorem mem_insertDescH {x e : Nat × EntryCell} {l : List (Nat × EntryCell)} :
    x ∈ insertDescH e l ↔ x = e ∨ x ∈ l := by
  induction l with
  | nil => simp [insertDescH]
  | cons y ys ih =>
    rw [insertDescH]
    split_ifs with h
    · simp only [List.mem_cons, ih]
      tauto
    · simp only [List.mem_cons]

theorem mem_sortDescH {x : Nat × EntryCell} {l : List (Nat × EntryCell)} :
    x ∈ sortDescH l ↔ x ∈ l := by
  induction l with
  | nil => simp [sortDescH]
  | cons y ys ih =>
    show x ∈ insertDescH y (sortDescH ys) ↔ _
    rw [mem_insertDescH, ih]
    simp

theorem foldl_set_next (l : List (Nat × EntryCell)) (st : Store) :
    (l.foldl
      (fun st p =>
        Store.set st p.1 ⟨p.2.index, p.2.name, ProbField.str (format3 (cellProb p.2))⟩)
      st).next = st.next := by
  induction l generalizing st with
  | nil => rfl
  | cons p rest ih =>
    rw [List.foldl_cons, ih]
    rfl

theorem foldl_set_frame (l : List (Nat × EntryCell)) (st : Store) (a : Nat)
    (h : ∀ p ∈ l, p.1 ≠ a) :
    (l.foldl
      (fun st p =>
        Store.set st p.1 ⟨p.2.index, p.2.name, ProbField.str (format3 (cellProb p.2))⟩)
      st).get a = st.get a := by
  induction l generalizing st with
  | nil => rfl
  | cons p rest ih =>
    rw [List.foldl_cons, ih _ (fun q hq => h q (List.mem_cons_of_mem _ hq))]
    exact store_get_skip (h p (List.mem_cons_self _ _))

theorem decodeRowH_frame (top_probs : Int) (row : List ℚ) (s : Store) :
    (∀ a, a < s.next → ((decodeRowH top_probs row s).2).get a = s.get a) ∧
    (∀ b ∈ (decodeRowH top_probs row s).1, s.next ≤ b) ∧
    s.next ≤ (decodeRowH top_probs row s).2.next := by
  have hmem : ∀ p ∈ pyTake top_probs (sortDescH (allocEntries (pyEnumerate 0 row) s).1),
      s.next ≤ p.1 := by
    intro p hp
    have hp2 : p ∈ sortDescH (allocEntries (pyEnumerate 0 row) s).1 := by
      rw [pyTake] at hp
      split_ifs at hp <;> exact List.mem_of_mem_take hp
    exact (allocEntries_addrs _ s p (mem_sortDescH.1 hp2)).1
  refine ⟨?_, ?_, ?_⟩
  · intro a ha
    show (List.foldl _ (allocEntries (pyEnumerate 0 row) s).2 _).get a = _
    rw [foldl_set_frame _ _ _ (fun p hp => by have := hmem p hp; omega)]
    exact allocEntries_get_lt _ _ ha
  · intro b hb
    rw [decodeRowH, List.mem_map] at hb
    obtain ⟨p, hp, rfl⟩ := hb
    exact hmem p hp
  · show s.next ≤ (List.foldl _ (allocEntries (pyEnumerate 0 row) s).2 _).next
    rw [foldl_set_next, allocEntries_next]
    omega

theorem setAttr_foldl_eq (l : List (String × PyV)) (acc : List (String × PyV)) :
    l.foldl (fun attrs p => setAttr attrs p.1 p.2) acc = l.reverse ++ acc := by
  induction l generalizing acc with
  | nil => rfl
  | cons p rest ih =>
    rw [List.foldl_cons, ih, List.reverse_cons, List.append_assoc]
    rfl

theorem baseModelInit_eq (top_probs : Option PyV) (kwargs : List (String × PyV)) :
    baseModelInit top_probs kwargs =
      kwargs.reverse ++ [("top_probs", top_probs.getD (PyV.num 5))] := by
  rw [baseModelInit, setAttr_foldl_eq]
  rfl

theorem find?_key_unique {l : List (String × PyV)} {k : String} {v : PyV}
    (hnd : (l.map Prod.fst).Nodup) (hm : (k, v) ∈ l) :
    l.find? (fun p => p.1 == k) = some (k, v) := by
  induction l with
  | nil => cases hm
  | cons p rest ih =>
    rw [List.map_cons, List.nodup_cons] at hnd
    rcases List.mem_cons.1 hm with rfl | hm2
    · rw [List.find?_cons_of_pos]
      simp
    · rw [List.find?_cons_of_neg, ih hnd.2 hm2]
      have : k ∈ rest.map Prod.fst := List.mem_map.2 ⟨(k, v), hm2, rfl⟩
      simp only [beq_iff_eq]
      intro hcon
      exact hnd.1 (hcon ▸ this)

theorem find?_append_all_neg {l l2 : List (String × PyV)} {p : (String × PyV) → Bool}
    (h : ∀ x ∈ l, ¬ p x = true) : (l ++ l2).find? p = l2.find? p := by
  induction l with
  | nil => rfl
  | cons x rest ih =>
    rw [List.cons_append, List.find?_cons_of_neg _ (h x (List.mem_cons_self _ _))]
    exact ih (fun y hy => h y (List.mem_cons_of_mem _ hy))

/-! ## Concrete evaluation helpers -/

theorem roundHalfEven_intCast (m : ℤ) : roundHalfEven ((m : ℚ)) = m := by
  rw [roundHalfEven, Int.floor_intCast]
  norm_num

theorem natToString_lt_10 {n : Nat} (h : n < 10) : natToString n = ⟨[digitChar n]⟩ := by
  rw [natToString, natToChars, if_pos h]

theorem format3_eval {q : ℚ} {n : ℕ} (h0 : 0 ≤ q) (hn : roundHalfEven (q * 1000) = (n : ℤ)) :
    format3 q = natToString (n / 1000) ++ "." ++ pad3 (n % 1000) := by
  simp only [format3, abs_of_nonneg h0, hn, if_neg (not_lt.2 h0), Int.toNat_natCast,
    String.empty_append]

theorem format3_7_10 : format3 (7/10 : ℚ) = "0.700" := by
  have h : roundHalfEven ((7/10:ℚ) * 1000) = ((700 : ℕ) : ℤ) := by
    rw [show ((7/10:ℚ) * 1000) = (((700:ℤ)) : ℚ) by norm_num, roundHalfEven_intCast]
    norm_num
  rw [format3_eval (by norm_num) h]
  rw [show (700:ℕ)/1000 = 0 from rfl, show (700:ℕ)%1000 = 700 from rfl,
    @natToString_lt_10 0 (by omega)]
  rfl

theorem format3_1_5 : format3 (1/5 : ℚ) = "0.200" := by
  have h : roundHalfEven ((1/5:ℚ) * 1000) = ((200 : ℕ) : ℤ) := by
    rw [show ((1/5:ℚ) * 1000) = (((200:ℤ)) : ℚ) by norm_num, roundHalfEven_intCast]
    norm_num
  rw [format3_eval (by norm_num) h]
  rw [show (200:ℕ)/1000 = 0 from rfl, show (200:ℕ)%1000 = 200 from rfl,
    @natToString_lt_10 0 (by omega)]
  rfl

theorem format3_one : format3 (1 : ℚ) = "1.000" := by
  have h : roundHalfEven ((1:ℚ) * 1000) = ((1000 : ℕ) : ℤ) := by
    rw [show ((1:ℚ) * 1000) = (((1000:ℤ)) : ℚ) by norm_num, roundHalfEven_intCast]
    norm_num
  rw [format3_eval (by norm_num) h]
  rw [show (1000:ℕ)/1000 = 1 from rfl, show (1000:ℕ)%1000 = 0 from rfl,
    @natToString_lt_10 1 (by omega)]
  rfl

theorem take_two (a b : α) (l : List α) : List.take 2 (a :: b :: l) = [a, b] := rfl

/-- A probability array (a list of rows of numbers) as a Python value. -/
def pyOfProbRows (arr : List (List ℚ)) : PyV :=
  PyV.list (arr.map (fun row => PyV.list (row.map PyV.num)))

/-- A decoded result (a list of rows of entry dicts) as a Python value. -/
def pyOfDecoded (res : List (List DecodedEntry)) : PyV :=
  PyV.list (res.map (fun row => PyV.list (row.map (fun e =>
    PyV.dict [("index", PyV.num (e.index : ℚ)), ("name", PyV.str e.name),
      ("prob", PyV.str e.prob)]))))

/-! ## Claim theorems -/

/-- C1, counterexample: the claim "decode_prob returns its input unchanged
(identity) when no delegate is configured" is false. With no delegate, on input
`[[1.0]]` `decode_prob` returns `[[{'index': 0, 'name': '0', 'prob': '1.000'}]]`,
which (as a Python value) is not the input `[[1.0]]`. -/
theorem c1_decode_prob_not_identity_counterexample :
    (BaseModel.decode_prob
        (⟨5, none, none, none, fun _ => Except.error PyError.notImplementedError⟩ :
          BaseModel Unit Unit Unit) [[(1 : ℚ)]]).1 =
      Except.ok [[⟨0, "0", "1.000"⟩]] ∧
    pyOfDecoded [[⟨0, "0", "1.000"⟩]] ≠ pyOfProbRows [[(1 : ℚ)]] := by
  constructor
  · show (Except.ok (decode_prob_default 5 [[(1:ℚ)]]) : Except PyError _) = _
    rw [decode_prob_default]
    simp only [List.map_cons, List.map_nil]
    rw [decodeRow, rowEntries]
    simp only [pyEnumerate, List.map_cons, List.map_nil]
    rw [sortDesc]
    simp only [List.foldr_cons, List.foldr_nil]
    rw [insertDesc]
    norm_num [pyTake]
    rw [@natToString_lt_10 0 (by omega), format3_one]
    rfl
  · simp [pyOfDecoded, pyOfProbRows]

/-- C1, amended: when no delegate is configured, `preprocess` and `postprocess`
return their input unchanged and `decode_prob` returns the result of the
default decoding algorithm (not its input); each emits its warning and none
raises an exception. -/
theorem c1_no_delegate_fallbacks {ρ π σ : Type} (m : BaseModel ρ π σ)
    (raw_targets : ρ) (post_arr : π) (output_arr : List (List ℚ))
    (h1 : m.preprocessor = none) (h2 : m.postprocessor = none)
    (h3 : m.prob_decoder = none) :
    m.preprocess raw_targets =
      (Except.ok raw_targets, ["Evaluating without preprocessor"]) ∧
    m.postprocess post_arr =
      (Except.ok post_arr, ["Evaluating without postprocessor"]) ∧
    m.decode_prob output_arr =
      (Except.ok (decode_prob_default m.top_probs output_arr),
       ["Evaluating without class decoder"]) := by
  refine ⟨?_, ?_, ?_⟩
  · simp only [BaseModel.preprocess, h1]
  · simp only [BaseModel.postprocess, h2]
  · simp only [BaseModel.decode_prob, h3]

/-- Witness for `c1_no_delegate_fallbacks` at a concrete delegate-free model. -/
theorem c1_no_delegate_fallbacks_witness :
    (⟨5, none, none, none, fun _ => Except.error PyError.notImplementedError⟩ :
        BaseModel Unit Unit Unit).preprocessor = none ∧
    (⟨5, none, none, none, fun _ => Except.error PyError.notImplementedError⟩ :
        BaseModel Unit Unit Unit).postprocessor = none ∧
    (⟨5, none, none, none, fun _ => Except.error PyError.notImplementedError⟩ :
        BaseModel Unit Unit Unit).prob_decoder = none ∧
    ((⟨5, none, none, none, fun _ => Except.error PyError.notImplementedError⟩ :
        BaseModel Unit Unit Unit).preprocess () =
      (Except.ok (), ["Evaluating without preprocessor"]) ∧
    (⟨5, none, none, none, fun _ => Except.error PyError.notImplementedError⟩ :
        BaseModel Unit Unit Unit).postprocess () =
      (Except.ok (), ["Evaluating without postprocessor"]) ∧
    (⟨5, none, none, none, fun _ => Except.error PyError.notImplementedError⟩ :
        BaseModel Unit Unit Unit).decode_prob [[(1 : ℚ)]] =
      (Except.ok (decode_prob_default 5 [[(1 : ℚ)]]),
       ["Evaluating without class decoder"])) :=
  ⟨rfl, rfl, rfl, c1_no_delegate_fallbacks _ () () [[(1 : ℚ)]] rfl rfl rfl⟩

/-- C2: for a positive `top_probs = k`, the default decoding returns one list
per input row, the `i`-th output row decoding the `i`-th input row, and the
`i`-th output row has length `min k (number of classes in row i)`. -/
theorem c2_decode_prob_default_row_lengths (top_probs : Int) (h : 0 < top_probs)
    (output_arr : List (List ℚ)) :
    (decode_prob_default top_probs output_arr).length = output_arr.length ∧
    (∀ i, i < output_arr.length →
      (decode_prob_default top_probs output_arr).getD i [] =
        decodeRow top_probs (output_arr.getD i [])) ∧
    ∀ i, i < output_arr.length →
      ((decode_prob_default top_probs output_arr).getD i []).length =
        min top_probs.toNat ((output_arr.getD i []).length) := by
  have hrow : ∀ i, i < output_arr.length →
      (decode_prob_default top_probs output_arr).getD i [] =
        decodeRow top_probs (output_arr.getD i []) := by
    intro i hi
    rw [decode_prob_default]
    simp [List.getD_eq_getElem?_getD, List.getElem?_map, List.getElem?_eq_getElem hi]
  refine ⟨by rw [decode_prob_default, List.length_map], hrow, fun i hi => ?_⟩
  rw [hrow i hi, decodeRow_length (le_of_lt h)]

/-- Witness for `c2_decode_prob_default_row_lengths` at `k = 2` on a two-row
array. -/
theorem c2_decode_prob_default_row_lengths_witness :
    (0 : Int) < 2 ∧
    ((decode_prob_default 2 [[0], [0, 0, 0]]).length =
        ([[0], [0, 0, 0]] : List (List ℚ)).length ∧
      (∀ i, i < ([[0], [0, 0, 0]] : List (List ℚ)).length →
        (decode_prob_default 2 [[0], [0, 0, 0]]).getD i [] =
          decodeRow 2 (([[0], [0, 0, 0]] : List (List ℚ)).getD i [])) ∧
      ∀ i, i < ([[0], [0, 0, 0]] : List (List ℚ)).length →
        ((decode_prob_default 2 [[0], [0, 0, 0]]).getD i []).length =
          min (Int.toNat 2) ((([[0], [0, 0, 0]] : List (List ℚ)).getD i []).length)) :=
  ⟨by decide, c2_decode_prob_default_row_lengths 2 (by decide) [[0], [0, 0, 0]]⟩

/-- C3: within each decoded row, entries are ordered by their source
probability (recovered via the entry's class index) in descending order, with
ties ordered by ascending original class index (the sort is stable); every
retained index is a valid class index of the row. -/
theorem c3_decode_prob_default_sorted_stable (top_probs : Int) (row : List ℚ) :
    (decodeRow top_probs row).Pairwise
      (fun a b => row.getD b.index 0 < row.getD a.index 0 ∨
        (row.getD a.index 0 = row.getD b.index 0 ∧ a.index < b.index)) ∧
    (decodeRow top_probs row).Forall (fun d => d.index < row.length) :=
  ⟨decodeRow_pairwise top_probs row,
   List.forall_iff_forall_mem.2 (fun _ hd => (decodeRow_mem hd).1)⟩

/-- C4: every retained entry's `prob` field is the 3-decimal formatting of its
source probability; the formatted string has exactly three digits after the
(only) decimal point, and its numeric value is the source probability rounded
to 3 decimal places (within half of a thousandth, ties to even). -/
theorem c4_decode_prob_default_prob_format (top_probs : Int) (row : List ℚ) :
    (decodeRow top_probs row).Forall
      (fun d => d.prob = format3 (row.getD d.index 0)) ∧
    ∀ q : ℚ,
      (∃ pre frac, (format3 q).data = pre ++ '.' :: frac ∧ frac.length = 3 ∧
        frac.all Char.isDigit = true ∧ pre.all (fun c => !(c == '.')) = true) ∧
      |format3Val q - q| ≤ 1/2000 := by
  constructor
  · exact List.forall_iff_forall_mem.2 (fun d hd => (decodeRow_mem hd).2.1)
  · intro q
    refine ⟨?_, format3Val_close q⟩
    obtain ⟨pre, frac, h1, h2, h3, h4⟩ := format3_shape q
    refine ⟨pre, frac, h1, h2, List.all_eq_true.2 h3, List.all_eq_true.2 ?_⟩
    intro c hc
    simp only [Bool.not_eq_true', beq_eq_false_iff_ne]
    intro hcon
    exact h4 (hcon ▸ hc)

/-- C5: `BaseModel(top_probs=2)` with no `prob_decoder`, on
`decode_prob([[0.1, 0.7, 0.2]])`, returns exactly
`[[{'index': 1, 'name': '1', 'prob': '0.700'},
   {'index': 2, 'name': '2', 'prob': '0.200'}]]`. -/
theorem c5_concrete_decode_prob :
    (BaseModel.decode_prob
        (⟨2, none, none, none, fun _ => Except.error PyError.notImplementedError⟩ :
          BaseModel Unit Unit Unit)
        [[1/10, 7/10, 2/10]]).1 =
      Except.ok [[⟨1, "1", "0.700"⟩, ⟨2, "2", "0.200"⟩]] := by
  show (Except.ok (decode_prob_default 2 [[1/10, 7/10, 2/10]]) : Except PyError _) = _
  rw [decode_prob_default]
  simp only [List.map_cons, List.map_nil]
  rw [decodeRow, rowEntries]
  simp only [pyEnumerate, List.map_cons, List.map_nil]
  rw [sortDesc]
  simp only [List.foldr_cons, List.foldr_nil]
  rw [insertDesc]
  norm_num [insertDesc, pyTake]
  rw [show Int.toNat 2 = 2 from rfl, take_two]
  rw [@natToString_lt_10 1 (by omega), @natToString_lt_10 2 (by omega),
    format3_7_10, format3_1_5]
  rfl

/-- C6: `predict(raw_targets)` returns exactly `_predict(preprocess(raw_targets))`
(the error of `preprocess`, if any, propagating before `_predict` runs, and
`preprocess`'s warnings kept), and its result does not depend on the
`postprocessor` or `prob_decoder` delegates — `predict` never invokes
`postprocess` or `decode_prob`. -/
theorem c6_predict_composes {ρ π σ : Type} (m : BaseModel ρ π σ) (raw_targets : ρ) :
    m.predict raw_targets =
      ((m.preprocess raw_targets).1.bind m._predict, (m.preprocess raw_targets).2) ∧
    ∀ (post : Option (π → Except PyError π))
      (dec : Option (List (List ℚ) → Int → Except PyError (List (List DecodedEntry)))),
      BaseModel.predict { m with postprocessor := post, prob_decoder := dec }
          raw_targets =
        m.predict raw_targets := by
  constructor
  · rcases h : m.preprocess raw_targets with ⟨v, w⟩
    simp only [BaseModel.predict, h]
    cases v
    · rfl
    · rfl
  · intro post dec
    rfl

/-- C7: constructing a `BaseModel` makes every extra keyword argument a
readable instance attribute (the construction is total, so no key is
rejected), and `top_probs` is `5` when not supplied (and the supplied value
when it is). -/
theorem c7_init_kwargs_attributes (kwargs : List (String × PyV))
    (hnd : (kwargs.map Prod.fst).Nodup)
    (htp : "top_probs" ∉ kwargs.map Prod.fst) :
    (∀ (top_probs : Option PyV) (k : String) (v : PyV), (k, v) ∈ kwargs →
      pyGetattr (baseModelInit top_probs kwargs) k = some v) ∧
    pyGetattr (baseModelInit none kwargs) "top_probs" = some (PyV.num 5) ∧
    ∀ tp : PyV, pyGetattr (baseModelInit (some tp) kwargs) "top_probs" = some tp := by
  have htop : ∀ o : Option PyV,
      pyGetattr (baseModelInit o kwargs) "top_probs" = some (o.getD (PyV.num 5)) := by
    intro o
    rw [baseModelInit_eq, pyGetattr, find?_append_all_neg, List.find?_cons_of_pos]
    · rfl
    · simp
    · intro x hx
      simp only [beq_iff_eq]
      intro hcon
      exact htp (hcon ▸ List.mem_map.2 ⟨x, List.mem_reverse.1 hx, rfl⟩)
  refine ⟨?_, htop none, fun tp => htop (some tp)⟩
  intro o k v hm
  rw [baseModelInit_eq, pyGetattr, find?_key_unique ?_ ?_]
  · rfl
  · rw [List.map_append, List.map_reverse]
    refine List.Nodup.append (List.nodup_reverse.2 hnd) (by simp) ?_
    intro x hx1 hx2
    simp only [List.map_cons, List.map_nil, List.mem_singleton] at hx2
    exact htp (hx2 ▸ List.mem_reverse.1 hx1)
  · exact List.mem_append_left _ (List.mem_reverse.2 hm)

/-- Witness for `c7_init_kwargs_attributes` on `kwargs = [("alpha", 1)]`. -/
theorem c7_init_kwargs_attributes_witness :
    (([("alpha", PyV.num 1)].map Prod.fst).Nodup ∧
      "top_probs" ∉ [("alpha", PyV.num 1)].map Prod.fst) ∧
    ((∀ (top_probs : Option PyV) (k : String) (v : PyV),
        (k, v) ∈ [("alpha", PyV.num 1)] →
        pyGetattr (baseModelInit top_probs [("alpha", PyV.num 1)]) k = some v) ∧
      pyGetattr (baseModelInit none [("alpha", PyV.num 1)]) "top_probs" =
        some (PyV.num 5) ∧
      ∀ tp : PyV,
        pyGetattr (baseModelInit (some tp) [("alpha", PyV.num 1)]) "top_probs" =
          some tp) :=
  ⟨⟨by simp, by simp⟩, c7_init_kwargs_attributes [("alpha", PyV.num 1)] (by simp) (by simp)⟩

/-- C8: whenever module execution, class lookup and construction all succeed,
`generate_model` returns the constructed instance even when it is not an
instance of `BaseModel`; in that case it emits the (non-fatal) warning naming
the class and the path, instead of raising. -/
theorem c8_generate_model_nonconforming {κ ι : Type}
    (exec_module : Except PyError Unit) (getattr_cls : String → Except PyError κ)
    (instantiate : κ → Except PyError ι) (isinstance_BaseModel : ι → Bool)
    (model_cls_path model_cls_name : String) (cls : κ) (model : ι)
    (hexec : exec_module = Except.ok ())
    (hcls : getattr_cls model_cls_name = Except.ok cls)
    (hinst : instantiate cls = Except.ok model) :
    generate_model exec_module getattr_cls instantiate isinstance_BaseModel
        model_cls_path model_cls_name =
      (Except.ok model,
       if isinstance_BaseModel model then []
       else [notInstanceWarning model_cls_name model_cls_path]) ∧
    (isinstance_BaseModel model = false →
      generate_model exec_module getattr_cls instantiate isinstance_BaseModel
          model_cls_path model_cls_name =
        (Except.ok model, [notInstanceWarning model_cls_name model_cls_path])) := by
  have hmain : generate_model exec_module getattr_cls instantiate isinstance_BaseModel
      model_cls_path model_cls_name =
      (Except.ok model,
       if isinstance_BaseModel model then []
       else [notInstanceWarning model_cls_name model_cls_path]) := by
    simp only [generate_model, hexec, hcls, hinst]
  exact ⟨hmain, fun hfalse => by rw [hmain, hfalse]; rfl⟩

/-- Witness for `c8_generate_model_nonconforming` with a trivially succeeding
loader producing a non-conforming instance. -/
theorem c8_generate_model_nonconforming_witness :
    ((Except.ok () : Except PyError Unit) = Except.ok () ∧
      (fun _ : String => (Except.ok () : Except PyError Unit)) "M" = Except.ok () ∧
      (fun _ : Unit => (Except.ok (0 : Nat) : Except PyError Nat)) () = Except.ok 0) ∧
    (generate_model (Except.ok ()) (fun _ => Except.ok ()) (fun _ => Except.ok 0)
        (fun _ : Nat => false) "/tmp/m.py" "M" =
      (Except.ok 0,
       if (fun _ : Nat => false) 0 then [] else [notInstanceWarning "M" "/tmp/m.py"]) ∧
      ((fun _ : Nat => false) 0 = false →
        generate_model (Except.ok ()) (fun _ => Except.ok ()) (fun _ => Except.ok 0)
            (fun _ : Nat => false) "/tmp/m.py" "M" =
          (Except.ok 0, [notInstanceWarning "M" "/tmp/m.py"]))) :=
  ⟨⟨rfl, rfl, rfl⟩,
   c8_generate_model_nonconforming (Except.ok ()) (fun _ => Except.ok ())
     (fun _ => Except.ok 0) (fun _ => false) "/tmp/m.py" "M" () 0 rfl rfl rfl⟩

/-- C9: a configured delegate whose invocation itself raises `AttributeError`
is caught exactly like an absent delegate: each of the three methods emits its
"evaluating without" warning and returns the fallback result instead of
propagating the delegate's error. -/
theorem c9_delegate_attributeerror_fallback {ρ π σ : Type} (m : BaseModel ρ π σ)
    (f : ρ → Except PyError ρ) (g : π → Except PyError π)
    (d : List (List ℚ) → Int → Except PyError (List (List DecodedEntry)))
    (raw_targets : ρ) (post_arr : π) (output_arr : List (List ℚ))
    (h1 : m.preprocessor = some f)
    (hf : f raw_targets = Except.error PyError.attributeError)
    (h2 : m.postprocessor = some g)
    (hg : g post_arr = Except.error PyError.attributeError)
    (h3 : m.prob_decoder = some d)
    (hd : d output_arr m.top_probs = Except.error PyError.attributeError) :
    m.preprocess raw_targets =
      (Except.ok raw_targets, ["Evaluating without preprocessor"]) ∧
    m.postprocess post_arr =
      (Except.ok post_arr, ["Evaluating without postprocessor"]) ∧
    m.decode_prob output_arr =
      (Except.ok (decode_prob_default m.top_probs output_arr),
       ["Evaluating without class decoder"]) := by
  refine ⟨?_, ?_, ?_⟩
  · simp only [BaseModel.preprocess, h1, hf]
  · simp only [BaseModel.postprocess, h2, hg]
  · simp only [BaseModel.decode_prob, h3, hd]

/-- Witness for `c9_delegate_attributeerror_fallback` at a model whose three
delegates all raise `AttributeError` when invoked. -/
theorem c9_delegate_attributeerror_fallback_witness :
    ((⟨5, some (fun _ => Except.error PyError.attributeError),
        some (fun _ => Except.error PyError.attributeError),
        some (fun _ _ => Except.error PyError.attributeError),
        fun _ => Except.error PyError.notImplementedError⟩ :
          BaseModel Unit Unit Unit).preprocessor =
        some (fun _ => Except.error PyError.attributeError) ∧
      (fun _ : Unit => (Except.error PyError.attributeError : Except PyError Unit)) () =
        Except.error PyError.attributeError) ∧
    ((⟨5, some (fun _ => Except.error PyError.attributeError),
        some (fun _ => Except.error PyError.attributeError),
        some (fun _ _ => Except.error PyError.attributeError),
        fun _ => Except.error PyError.notImplementedError⟩ :
          BaseModel Unit Unit Unit).preprocess () =
      (Except.ok (), ["Evaluating without preprocessor"]) ∧
    (⟨5, some (fun _ => Except.error PyError.attributeError),
        some (fun _ => Except.error PyError.attributeError),
        some (fun _ _ => Except.error PyError.attributeError),
        fun _ => Except.error PyError.notImplementedError⟩ :
          BaseModel Unit Unit Unit).postprocess () =
      (Except.ok (), ["Evaluating without postprocessor"]) ∧
    (⟨5, some (fun _ => Except.error PyError.attributeError),
        some (fun _ => Except.error PyError.attributeError),
        some (fun _ _ => Except.error PyError.attributeError),
        fun _ => Except.error PyError.notImplementedError⟩ :
          BaseModel Unit Unit Unit).decode_prob [[(1 : ℚ)]] =
      (Except.ok (decode_prob_default 5 [[(1 : ℚ)]]),
       ["Evaluating without class decoder"])) :=
  ⟨⟨rfl, rfl⟩,
   c9_delegate_attributeerror_fallback _ _ _ _ () () [[(1 : ℚ)]]
     rfl rfl rfl rfl rfl rfl⟩

/-- C10: the default decoding never modifies anything that existed before the
call: every dict reachable before the call is unchanged in the final heap, and
every returned entry reference is a freshly allocated dict — the in-place
`entry['prob'] = ...` formatting touches only those new dicts. -/
theorem c10_decode_prob_default_frame (top_probs : Int)
    (output_arr : List (List ℚ)) (s : Store) :
    (∀ a, a < s.next →
      ((decode_prob_defaultH top_probs output_arr s).2).get a = s.get a) ∧
    ((decode_prob_defaultH top_probs output_arr s).1).Forall
      (fun r => r.Forall (fun a => s.next ≤ a)) ∧
    s.next ≤ (decode_prob_defaultH top_probs output_arr s).2.next := by
  induction output_arr generalizing s with
  | nil => exact ⟨fun a ha => rfl, trivial, le_refl _⟩
  | cons row rest ih =>
    obtain ⟨hrf, hra, hrn⟩ := decodeRowH_frame top_probs row s
    obtain ⟨ihf, iha, ihn⟩ := ih (decodeRowH top_probs row s).2
    simp only [decode_prob_defaultH]
    refine ⟨?_, (List.forall_cons _ _ _).2 ⟨?_, ?_⟩, le_trans hrn ihn⟩
    · intro a ha
      rw [ihf a (lt_of_lt_of_le ha hrn), hrf a ha]
    · exact List.forall_iff_forall_mem.2 (fun b hb => hra b hb)
    · refine List.forall_iff_forall_mem.2 ?_
      intro r hr
      refine List.forall_iff_forall_mem.2 ?_
      intro a ha2
      have h1 := List.forall_iff_forall_mem.1 iha r hr
      have h2 := List.forall_iff_forall_mem.1 h1 a ha2
      omega

/-- Witness for `c10_decode_prob_default_frame` on a heap holding one
pre-existing dict at address `0`. -/
theorem c10_decode_prob_default_frame_witness :
    (0 < 1 ∧
      ((decode_prob_defaultH 5 [[(1 : ℚ)]] ⟨1, [(0, ⟨7, "7", ProbField.num 1⟩)]⟩).2).get 0 =
        Store.get ⟨1, [(0, ⟨7, "7", ProbField.num 1⟩)]⟩ 0) ∧
    ((decode_prob_defaultH 5 [[(1 : ℚ)]] ⟨1, [(0, ⟨7, "7", ProbField.num 1⟩)]⟩).1).Forall
      (fun r => r.Forall (fun a => 1 ≤ a)) ∧
    1 ≤ (decode_prob_defaultH 5 [[(1 : ℚ)]] ⟨1, [(0, ⟨7, "7", ProbField.num 1⟩)]⟩).2.next :=
  ⟨⟨by decide,
    (c10_decode_prob_default_frame 5 [[(1 : ℚ)]] ⟨1, [(0, ⟨7, "7", ProbField.num 1⟩)]⟩).1
      0 (by decide)⟩,
   (c10_decode_prob_default_frame 5 [[(1 : ℚ)]] ⟨1, [(0, ⟨7, "7", ProbField.num 1⟩)]⟩).2.1,
   (c10_decode_prob_default_frame 5 [[(1 : ℚ)]] ⟨1, [(0, ⟨7, "7", ProbField.num 1⟩)]⟩).2.2⟩
